import Mathlib

set_option linter.unusedVariables false

/-- A dynamically typed Go value as handled by the data access layer:
record fields hold ints, strings or bools. -/
inductive GoVal where
  | vint (n : Int)
  | vstr (s : String)
  | vbool (b : Bool)
deriving DecidableEq

/-- Rendering of a value by Go's fmt package with the %v verb, as used in
`fmt.Sprintf("%v", row.FieldByName(fields[u]))` in `write`. -/
def sprintfV : GoVal → String
  | .vint n => toString n
  | .vstr s => s
  | .vbool b => if b then "true" else "false"

/-- One field of a Go struct as seen through reflection by `parseValue`:
either a scalar field carrying a name, a `field:"..."` tag (the empty string
when the tag is absent, as `Tag.Get` reports it) and a value, or a field whose
own type is a struct, carrying its sub-fields. A record (one row to write) is
a `List FieldVal`. -/
inductive FieldVal where
  | scalar (name tag : String) (val : GoVal)
  | nested (name tag : String) (sub : List FieldVal)

mutual

/-- One iteration of the recursive `parse` closure inside `parseValue`
(part_002 lines 145-160): a struct-kind field is recursed into, any other
field appends `(field.Name, tag-or-name)` to the accumulated slices `fields`
and `tags`. -/
def parseAccOne : FieldVal → List String × List String → List String × List String
  | FieldVal.scalar name tag _, (fs, ts) =>
      (fs ++ [name], ts ++ [if tag = "" then name else tag])
  | FieldVal.nested _ _ sub, acc => parseAccList sub acc

/-- The recursive `parse` closure of `parseValue` run over a field list in
declaration order. -/
def parseAccList : List FieldVal → List String × List String → List String × List String
  | [], acc => acc
  | f :: rest, acc => parseAccList rest (parseAccOne f acc)

end

mutual

/-- Modelled from the spec (section 4.1 Schema Extractor), per field: "if the
field's own type is itself a nested record, recurse and splice its flattened
fields in place of the parent field; otherwise emit one descriptor using the
field's declared name and its naming-override tag (falling back to field
name)". Used only to compare the source-side extractor against the spec's
description. -/
def specDescOne : FieldVal → List (String × String)
  | FieldVal.scalar name tag _ => [(name, if tag = "" then name else tag)]
  | FieldVal.nested _ _ sub => specColumnDescriptors sub

/-- Modelled from the spec (section 4.1 Schema Extractor): the ordered column
descriptor list of a record type, in field declaration order. -/
def specColumnDescriptors : List FieldVal → List (String × String)
  | [] => []
  | f :: rest => specDescOne f ++ specColumnDescriptors rest

end

/-- `parseValue` (part_002 lines 143-182): flattens the record type, then
builds the one-row placeholder group and the SQL text template for the write
mode; the template keeps a literal `%s` where the chunk's placeholder groups
are substituted. Go's `fmt.Sprintf` over the constant format strings is
embedded as string concatenation. For a mode other than Create and Update the
switch leaves `query` empty. -/
def parseValue (rv : List FieldVal) (table mode : String) :
    List String × String × String :=
  let ft := parseAccList rv ([], [])
  let tags := ft.2
  let updates := tags.map (fun tag => tag ++ "=values(" ++ tag ++ ")")
  let placeholder := "(" ++ String.intercalate "," (tags.map (fun _ => "?")) ++ ")"
  let query :=
    match mode with
    | "Create" =>
        "insert ignore into " ++ table ++ "(" ++ String.intercalate "," tags ++
          ") values %s;"
    | "Update" =>
        "insert into " ++ table ++ "(" ++ String.intercalate "," tags ++
          ") values %s on duplicate key update " ++
          String.intercalate "," updates ++ ";"
    | _ => ""
  (ft.1, query, placeholder)

mutual

/-- `reflect.Value.FieldByName` restricted to the record shapes this package
supports (flattened field names unique, nested structs embedded): fields of
the struct are searched in order, descending into struct-kind fields; `none`
is the zero `reflect.Value` returned when the name is found nowhere. -/
def fieldByName : List FieldVal → String → Option GoVal
  | [], _ => none
  | f :: rest, name =>
      match fieldByNameF f name with
      | none => fieldByName rest name
      | some v => some v

/-- `FieldByName` on a single field: a scalar matches by name, a struct-kind
field is searched inside. -/
def fieldByNameF : FieldVal → String → Option GoVal
  | FieldVal.scalar n _ v, name => if n = name then some v else none
  | FieldVal.nested _ _ sub, name => fieldByName sub name

end

/-- `fmt.Sprintf("%v", rv)` on a possibly-invalid `reflect.Value`: the %v
rendering of the underlying value, or the fixed marker text when the field
lookup returned the zero value. -/
def sprintfRV : Option GoVal → String
  | some v => sprintfV v
  | none => "<invalid reflect.Value>"

/-- Go's `fmt.Sprintf` with a single `%s` verb and one string argument, at the
character level: the first occurrence of `%s` is replaced by the argument and
the remainder of the format is copied unchanged. -/
def substVerbS (arg : String) : List Char → List Char
  | [] => []
  | [c] => [c]
  | c :: d :: rest =>
      if c = '%' ∧ d = 's' then arg.toList ++ rest
      else c :: substVerbS arg (d :: rest)

/-- `fmt.Sprintf(format, arg)` for a format holding one `%s` verb, as used on
the query template in `write` (part_002 line 112). -/
def goSprintf1 (format arg : String) : String :=
  String.mk (substVerbS arg format.toList)

/-- The chunk decomposition performed by the loop
`for i := 0; i < rows.Len(); i += step` (part_002 line 100): successive runs
of `step` records, the last one possibly shorter. The Go loop does not
terminate when `step` is 0 (which needs more than 65535 columns); that case
is modelled as producing no chunks and is excluded by hypothesis wherever a
theorem's conclusion depends on the loop finishing. `chunksOfGo` carries the
fuel `l.length`, an upper bound on the number of loop iterations, so that the
recursion is structural; the zero-fuel case is unreachable for a positive
step. -/
def chunksOfGo : Nat → Nat → List α → List (List α)
  | _, _, [] => []
  | _, 0, _ :: _ => []
  | 0, _ + 1, _ :: _ => []
  | fuel + 1, step + 1, a :: as =>
      (a :: as).take (step + 1) :: chunksOfGo fuel (step + 1) ((a :: as).drop (step + 1))

/-- The chunk decomposition of the record slice performed by the write loop. -/
def chunksOf (step : Nat) (l : List α) : List (List α) :=
  chunksOfGo l.length step l

/-- The configuration fields of `Model` that drive a call (part_002 lines
16-22); the read-result fields live in `ModelState` below, mirroring how the
Go methods mutate them through a pointer receiver. -/
structure Model where
  DriverName : String
  DataSourceName : String
  BatchSize : Int
deriving DecidableEq

/-- `getConn` (part_002 lines 27-54): validates the driver name and data
source, applies the 4096 default to an unset batch size, rejects a negative
one, and binds to the (possibly cached) connection. `openErr` is the error
`sql.Open` would report; a cache hit corresponds to `openErr = none`. The
returned `Model` carries the adjusted batch size, as the pointer receiver
leaves it for the caller. -/
def getConn (model : Model) (openErr : Option String) : Except String Model :=
  if model.DriverName ≠ "mysql" then
    .error "model.driver name is not mysql"
  else if model.DataSourceName = "" then
    .error "model.datasource is empty"
  else
    let m := if model.BatchSize = 0 then { model with BatchSize := 4096 } else model
    if m.BatchSize < 0 then
      .error "model.Batchsize cannot be negative"
    else
      match openErr with
      | some e => .error (e ++ "\n model.getConn failed to connect database")
      | none => .ok m

/-- The database driver as an oracle for one `write` call: the outcome of
`sql.Open`, of `conn.Begin`, of `tx.Prepare` and `stmt.Exec` per chunk index
(seeing the statement text and the bound parameters the code hands over), and
of `tx.Commit`. -/
structure DBEnv where
  openErr : Option String
  beginErr : Option String
  prepare : Nat → String → Option String
  exec : Nat → List GoVal → Except String Int
  commit : Option String

/-- The `values interface{}` argument of `write`: either not a slice at all,
or a slice of records. -/
inductive WriteInput where
  | notSlice
  | slice (rows : List (List FieldVal))

/-- The flattened parameter list the chunk loop binds (part_002 lines
103-110): for each row of the chunk, in row-major order, the %v string
rendering of each flattened field looked up by name. -/
def chunkParams (fields : List String) (chunk : List (List FieldVal)) : List GoVal :=
  (chunk.map (fun row =>
    fields.map (fun f => GoVal.vstr (sprintfRV (fieldByName row f))))).flatten

/-- Outcome of the chunk loop of `write`: accumulated rows affected, the
reported error if a chunk aborted the call, a runtime panic if one occurred,
and the chunk indices whose Prepare and Exec were reached together with the
parameter lists handed to Exec. -/
structure LoopOut where
  acc : Int
  err : Option String
  panicMsg : Option String
  prepared : List Nat
  executed : List Nat
  bound : List (List GoVal)
deriving DecidableEq

/-- The chunk loop of `write` (part_002 lines 100-134). `txOk` records
whether `conn.Begin` succeeded; the ignored Begin error leaves a nil
transaction handle, so the first `tx.Prepare` on it is a nil-pointer
dereference, modelled as the panic outcome. A failing Prepare or Exec returns
the rows affected so far together with an error, leaving later chunks
untouched. -/
def writeLoop (env : DBEnv) (mode table querief placeholder : String)
    (fields : List String) (txOk : Bool) :
    List (List (List FieldVal)) → Nat → Int → LoopOut
  | [], _, acc => ⟨acc, none, none, [], [], []⟩
  | chunk :: rest, k, acc =>
    let phs := List.replicate chunk.length placeholder
    let ps := chunkParams fields chunk
    let query := goSprintf1 querief (String.intercalate "," phs)
    if txOk then
      match env.prepare k query with
      | some e =>
          ⟨acc,
           some (e ++ "\n dal." ++ mode ++ " failed on transaction.Prepare of " ++
             goSprintf1 querief (placeholder ++ ",...")),
           none, [k], [], []⟩
      | none =>
          match env.exec k ps with
          | .error e =>
              ⟨acc,
               some (e ++ "\n model." ++ mode ++
                 " failed to write a record to table " ++ table),
               none, [k], [k], [ps]⟩
          | .ok a =>
              let out := writeLoop env mode table querief placeholder fields txOk
                rest (k + 1) (acc + a)
              ⟨out.acc, out.err, out.panicMsg, k :: out.prepared, k :: out.executed,
               ps :: out.bound⟩
    else
      ⟨0, none, some "runtime error: invalid memory address or nil pointer dereference",
       [], [], []⟩

/-- The chunk size computation of `write` (part_002 lines 94-98):
`step := model.BatchSize`, lowered to `valuesLimit / len(fields)` when that
quotient is smaller, where `valuesLimit` is `1<<16 - 1 = 65535`, the MySQL
ceiling on placeholders per statement. -/
def writeChunkStep (batch : Int) (numFields : Nat) : Nat :=
  let step : Int := batch
  let size : Int := 65535 / (numFields : Int)
  (if size < step then size else step).toNat

/-- Everything observable about one `write` call: the two returned values and
the interaction trace with the driver. -/
structure WriteTrace where
  rowsAffected : Int
  err : Option String
  panicMsg : Option String
  prepared : List Nat
  executed : List Nat
  bound : List (List GoVal)
  committed : Bool
deriving DecidableEq

/-- `write` (part_002 lines 79-141): connection binding, input-shape checks
on `values`, schema extraction and statement synthesis via `parseValue`,
chunk sizing, one transaction for the whole call, the chunk loop, and the
final commit whose failure is returned as zero rows affected. A record type
with no flattened scalar field makes `valuesLimit / len(fields)` a division
by zero, a Go runtime panic, modelled as the panic outcome before any chunk
runs. -/
def write (model : Model) (env : DBEnv) (table : String) (values : WriteInput)
    (mode : String) : WriteTrace :=
  match getConn model env.openErr with
  | .error e =>
      ⟨0, some (e ++ "\n dal." ++ mode ++ " failed on model.init"), none, [], [], [], false⟩
  | .ok m =>
    match values with
    | .notSlice =>
        ⟨0, some ("dal." ++ mode ++ ": values is not a slice"), none, [], [], [], false⟩
    | .slice [] =>
        ⟨0, some ("dal." ++ mode ++ ": values has NO elements"), none, [], [], [], false⟩
    | .slice (r0 :: rs) =>
      let pv := parseValue r0 table mode
      let fields := pv.1
      let querief := pv.2.1
      let placeholder := pv.2.2
      if fields.length = 0 then
        ⟨0, none, some "runtime error: integer divide by zero", [], [], [], false⟩
      else
        let step := writeChunkStep m.BatchSize fields.length
        let chunks := chunksOf step (r0 :: rs)
        let out := writeLoop env mode table querief placeholder fields
          env.beginErr.isNone chunks 0 0
        if out.panicMsg.isSome then
          ⟨0, none, out.panicMsg, out.prepared, out.executed, out.bound, false⟩
        else
          match out.err with
          | some e =>
              ⟨out.acc, some e, none, out.prepared, out.executed, out.bound, false⟩
          | none =>
            match env.commit with
            | some e =>
                ⟨0, some (e ++ "\n dal." ++ mode ++
                   " failed to commit transaction on table " ++ table),
                 none, out.prepared, out.executed, out.bound, false⟩
            | none =>
                ⟨out.acc, none, none, out.prepared, out.executed, out.bound, true⟩

/-- `Create` (part_002 lines 69-71): insert-ignore on the given table. -/
def Create (model : Model) (env : DBEnv) (table : String) (values : WriteInput) :
    WriteTrace :=
  write model env table values "Create"

/-- `Update` (part_002 lines 75-77): insert-update on the given table. -/
def Update (model : Model) (env : DBEnv) (table : String) (values : WriteInput) :
    WriteTrace :=
  write model env table values "Update"

/-- The database driver as an oracle for one `Read` call: outcome of
`sql.Open` and, per issued query text, of `conn.Query` - either an error or
the result rows, each row being either a Scan failure or the scanned column
values. -/
structure ReadEnv where
  openErr : Option String
  queryRes : String → Except String (List (Except String (List GoVal)))

/-- The two result fields of `Model` that `Read` mutates through its pointer
receiver: `Records`, the decoded records (each a field-name/value pairing in
field declaration order), and `rows`, the raw per-row scan targets. -/
structure ModelState where
  Records : List (List (String × GoVal))
  rows : List (List GoVal)
deriving DecidableEq

/-- The scan loop of the current `Read` (part_002 lines 204-219): a Scan
failure returns an error at once, keeping the rows decoded so far; a scanned
row is appended to the raw rows and, decoded by pairing the record type's
fields with the scanned values in declaration order, to the records. -/
def readLoopCur (readType : List String) :
    List (Except String (List GoVal)) → ModelState → ModelState × Option String
  | [], st => (st, none)
  | .error e :: _, st => (st, some (e ++ "\n model.Scan failed"))
  | .ok vals :: rest, st =>
      readLoopCur readType rest
        ⟨st.Records ++ [readType.zip vals], st.rows ++ [vals]⟩

/-- `Read` (part_002 lines 184-221): binds the connection, issues
`select <fields> from <table> <condition>`, and on success clears both result
fields before the scan loop repopulates them; on a connection or query error
the previous results are left untouched. -/
def Read (model : Model) (env : ReadEnv) (prev : ModelState) (table : String)
    (fields : List String) (condition : String) (readType : List String) :
    ModelState × Option String :=
  match getConn model env.openErr with
  | .error e => (prev, some (e ++ "\n dal.Read failed on model.Init"))
  | .ok _ =>
    let query := "select " ++ String.intercalate "," fields ++ " from " ++ table ++
      " " ++ condition
    match env.queryRes query with
    | .error e => (prev, some (e ++ "\n dal.Read failed on conn.Query"))
    | .ok resultRows => readLoopCur readType resultRows ⟨[], []⟩

/-- The scan loop of the legacy `Read` in dal.go (lines 163-180): a Scan
failure is logged and the row skipped, the loop continuing with the remaining
rows. -/
def readLoopLegacy (readType : List String) :
    List (Except String (List GoVal)) → ModelState → ModelState
  | [], st => st
  | .error _ :: rest, st => readLoopLegacy readType rest st
  | .ok vals :: rest, st =>
      readLoopLegacy readType rest
        ⟨st.Records ++ [readType.zip vals], st.rows ++ [vals]⟩

/-- The legacy `Read` of dal.go (lines 142-182) for a model already bound to
its connection (`model.db` non-nil, as on every call after the first): the
same query and clearing, but per-row Scan failures are tolerated and the call
returns no error for them. -/
def ReadLegacy (env : ReadEnv) (prev : ModelState) (table : String)
    (fields : List String) (condition : String) (readType : List String) :
    ModelState × Option String :=
  let query := "select " ++ String.intercalate "," fields ++ " from " ++ table ++
    " " ++ condition
  match env.queryRes query with
  | .error e => (prev, some (e ++ "\n dal.Read failed on model.db.Query"))
  | .ok resultRows => (readLoopLegacy readType resultRows ⟨[], []⟩, none)

/-- Index run `k, k+1, ..., k+n-1`, the chunk indices a run of the loop
touches. -/
def idxFrom : Nat → Nat → List Nat
  | _, 0 => []
  | k, n + 1 => k :: idxFrom (k + 1) n

/-- Concrete one-column records and driver oracles used by the closed
instance checks of the theorems below. -/
def exRec (n : Int) : List FieldVal := [FieldVal.scalar "ID" "id" (GoVal.vint n)]

def exRec2 : List FieldVal :=
  [FieldVal.scalar "ID" "id" (GoVal.vint 1), FieldVal.scalar "Name" "name" (GoVal.vstr "a")]

def exPerson : List FieldVal :=
  [FieldVal.nested "being" "" [FieldVal.scalar "Name" "name" (GoVal.vstr "John")],
   FieldVal.scalar "Age" "age" (GoVal.vint 12)]

def exEnvChunkFail : DBEnv :=
  ⟨none, none, fun _ _ => none,
   fun k _ => if k = 0 then Except.ok 2 else Except.error "boom", none⟩

def exEnvAllOk : DBEnv :=
  ⟨none, none, fun _ _ => none, fun _ _ => Except.ok 1, none⟩

def exEnvCommitFail : DBEnv :=
  ⟨none, none, fun _ _ => none, fun _ _ => Except.ok 1, some "commit refused"⟩

def exEnvBeginFail : DBEnv :=
  ⟨none, some "begin refused", fun _ _ => none, fun _ _ => Except.ok 1, none⟩

def exReadEnvScanFail : ReadEnv :=
  ⟨none, fun _ => Except.ok [Except.ok [GoVal.vint 1], Except.error "bad",
    Except.ok [GoVal.vint 3]]⟩

def exReadEnvOk : ReadEnv :=
  ⟨none, fun _ => Except.ok [Except.ok [GoVal.vint 1], Except.ok [GoVal.vint 2]]⟩

mutual

theorem parseAccOne_eq_spec (f : FieldVal) (acc : List String × List String) :
    parseAccOne f acc =
      (acc.1 ++ (specDescOne f).map Prod.fst,
       acc.2 ++ (specDescOne f).map Prod.snd) := by
  cases f with
  | scalar name tag v =>
      cases acc with
      | mk fs ts => simp [parseAccOne, specDescOne]
  | nested name tag sub =>
      simp only [parseAccOne, specDescOne]
      exact parseAccList_eq_spec sub acc

theorem parseAccList_eq_spec (fs : List FieldVal) (acc : List String × List String) :
    parseAccList fs acc =
      (acc.1 ++ (specColumnDescriptors fs).map Prod.fst,
       acc.2 ++ (specColumnDescriptors fs).map Prod.snd) := by
  cases fs with
  | nil => simp [parseAccList, specColumnDescriptors]
  | cons f rest =>
      simp only [parseAccList, specColumnDescriptors, List.map_append]
      rw [parseAccList_eq_spec rest (parseAccOne f acc), parseAccOne_eq_spec f acc]
      simp

end

theorem substVerbS_hit (arg : String) (B : List Char) :
    substVerbS arg ('%' :: 's' :: B) = arg.toList ++ B := by
  simp [substVerbS]

theorem substVerbS_split (arg : String) :
    ∀ (A B : List Char), '%' ∉ A →
      substVerbS arg (A ++ '%' :: 's' :: B) = A ++ arg.toList ++ B := by
  intro A
  induction A with
  | nil => intro B h; simp [substVerbS_hit]
  | cons c A' ih =>
      intro B h
      have hc : c ≠ '%' := by
        intro hcc; exact h (hcc ▸ List.mem_cons_self c A')
      cases A' with
      | nil =>
          simp only [List.nil_append, List.cons_append]
          rw [substVerbS]
          simp [hc, substVerbS_hit]
      | cons d A'' =>
          simp only [List.cons_append]
          rw [substVerbS]
          have hrest := ih B (fun hm => h (List.mem_cons_of_mem c hm))
          simp only [List.cons_append] at hrest
          simp [hc, hrest]

theorem chunksOfGo_length {α : Type} :
    ∀ (fuel step : Nat) (l : List α), 0 < step → l.length ≤ fuel →
      (chunksOfGo fuel step l).length = (l.length + step - 1) / step := by
  intro fuel
  induction fuel with
  | zero =>
      intro step l hs hl
      have hnil : l = [] := by
        cases l with
        | nil => rfl
        | cons a as => simp at hl
      subst hnil
      rw [chunksOfGo]
      simp only [List.length_nil, Nat.zero_add]
      exact (Nat.div_eq_of_lt (by omega)).symm
  | succ fuel ih =>
      intro step l hs hl
      cases l with
      | nil =>
          rw [chunksOfGo]
          simp only [List.length_nil, Nat.zero_add]
          exact (Nat.div_eq_of_lt (by omega)).symm
      | cons a as =>
          cases step with
          | zero => omega
          | succ step =>
              rw [chunksOfGo]
              simp only [List.length_cons]
              rw [ih (step + 1) ((a :: as).drop (step + 1)) (by omega)
                (by simp only [List.length_drop, List.length_cons]
                    simp only [List.length_cons] at hl
                    omega)]
              simp only [List.length_drop, List.length_cons]
              rcases le_or_lt (as.length + 1) (step + 1) with hle | hlt
              · have h1 : as.length + 1 - (step + 1) = 0 := by omega
                rw [h1]
                have h2 : (0 + (step + 1) - 1) / (step + 1) = 0 :=
                  Nat.div_eq_of_lt (by omega)
                rw [h2]
                have h3 : (as.length + 1 + (step + 1) - 1) / (step + 1) = 1 :=
                  Nat.div_eq_of_lt_le (by omega) (by omega)
                omega
              · have h4 : as.length + 1 + (step + 1) - 1 =
                    (as.length + 1 - (step + 1) + (step + 1) - 1) + (step + 1) := by
                  omega
                rw [h4, Nat.add_div_right _ (by omega : 0 < step + 1)]

theorem chunksOf_length {α : Type} (step : Nat) (l : List α) (hs : 0 < step) :
    (chunksOf step l).length = (l.length + step - 1) / step :=
  chunksOfGo_length l.length step l hs (Nat.le_refl _)

theorem chunksOfGo_mem {α : Type} :
    ∀ (fuel step : Nat) (l : List α),
      ∀ c ∈ chunksOfGo fuel step l, ∀ x ∈ c, x ∈ l := by
  intro fuel
  induction fuel with
  | zero =>
      intro step l c hc x hx
      cases l with
      | nil => rw [chunksOfGo] at hc; simp at hc
      | cons a as =>
          cases step with
          | zero => rw [chunksOfGo] at hc; simp at hc
          | succ step => rw [chunksOfGo] at hc; simp at hc
  | succ fuel ih =>
      intro step l c hc x hx
      cases l with
      | nil => rw [chunksOfGo] at hc; simp at hc
      | cons a as =>
          cases step with
          | zero => rw [chunksOfGo] at hc; simp at hc
          | succ step =>
              rw [chunksOfGo] at hc
              rcases List.mem_cons.mp hc with h | h
              · subst h
                exact List.take_subset _ _ hx
              · exact List.drop_subset _ _ (ih (step + 1) _ c h x hx)

theorem chunksOf_mem {α : Type} (step : Nat) (l : List α) :
    ∀ c ∈ chunksOf step l, ∀ x ∈ c, x ∈ l :=
  chunksOfGo_mem l.length step l

theorem idxFrom_length (k n : Nat) : (idxFrom k n).length = n := by
  induction n generalizing k with
  | zero => rfl
  | succ n ih => simp [idxFrom, ih]

theorem writeLoop_ok (env : DBEnv) (mode table querief placeholder : String)
    (fields : List String) (A : Nat → Int)
    (hp : ∀ k q, env.prepare k q = none)
    (he : ∀ k ps, env.exec k ps = Except.ok (A k)) :
    ∀ (cs : List (List (List FieldVal))) (k : Nat) (acc : Int),
      writeLoop env mode table querief placeholder fields true cs k acc =
        ⟨acc + ((idxFrom k cs.length).map A).sum, none, none,
         idxFrom k cs.length, idxFrom k cs.length,
         cs.map (chunkParams fields)⟩ := by
  intro cs
  induction cs with
  | nil => intro k acc; simp [writeLoop, idxFrom]
  | cons chunk rest ih =>
      intro k acc
      rw [writeLoop]
      simp only [hp, he, ih (k + 1) (acc + A k), List.length_cons, idxFrom]
      simp only [List.map_cons, List.sum_cons, if_true]
      rw [Int.add_assoc]

theorem writeLoop_abort (env : DBEnv) (mode table querief placeholder : String)
    (fields : List String) (A : Nat → Int) (K : Nat) (eK : String)
    (hp : ∀ k q, k < K → env.prepare k q = none)
    (he : ∀ k ps, k < K → env.exec k ps = Except.ok (A k))
    (hfail : (∀ q, env.prepare K q = some eK) ∨
             ((∀ q, env.prepare K q = none) ∧ ∀ ps, env.exec K ps = Except.error eK)) :
    ∀ (cs : List (List (List FieldVal))) (k : Nat) (acc : Int), k ≤ K → K < k + cs.length →
      (writeLoop env mode table querief placeholder fields true cs k acc).err.isSome = true ∧
      (writeLoop env mode table querief placeholder fields true cs k acc).panicMsg = none ∧
      (writeLoop env mode table querief placeholder fields true cs k acc).acc =
        acc + ((idxFrom k (K - k)).map A).sum ∧
      (∀ j ∈ (writeLoop env mode table querief placeholder fields true cs k acc).prepared, j ≤ K) ∧
      (∀ j ∈ (writeLoop env mode table querief placeholder fields true cs k acc).executed, j ≤ K) := by
  intro cs
  induction cs with
  | nil =>
      intro k acc hk hK
      simp only [List.length_nil] at hK
      omega
  | cons chunk rest ih =>
      intro k acc hk hK
      rcases Nat.lt_or_ge k K with hlt | hge
      · have hpk : ∀ q, env.prepare k q = none := fun q => hp k q hlt
        have hek : ∀ ps, env.exec k ps = Except.ok (A k) := fun ps => he k ps hlt
        rw [writeLoop]
        simp only [hpk, hek, if_true]
        have hrec := ih (k + 1) (acc + A k) (by omega)
          (by simp only [List.length_cons] at hK; omega)
        refine ⟨hrec.1, hrec.2.1, ?_, ?_, ?_⟩
        · rw [hrec.2.2.1]
          have hKk : K - k = (K - (k + 1)) + 1 := by omega
          rw [hKk]
          simp only [idxFrom, List.map_cons, List.sum_cons]
          rw [Int.add_assoc]
        · intro j hj
          simp only [List.mem_cons] at hj
          rcases hj with h | h
          · omega
          · exact hrec.2.2.2.1 j h
        · intro j hj
          simp only [List.mem_cons] at hj
          rcases hj with h | h
          · omega
          · exact hrec.2.2.2.2 j h
      · have hkK : k = K := by omega
        subst hkK
        rw [writeLoop]
        rcases hfail with hpf | ⟨hpn, hef⟩
        · simp only [hpf, if_true]
          refine ⟨by simp, by simp, by simp [Nat.sub_self, idxFrom], ?_, by simp⟩
          intro j hj
          simp only [List.mem_cons, List.not_mem_nil, or_false] at hj
          omega
        · simp only [hpn, hef, if_true]
          refine ⟨by simp, by simp, by simp [Nat.sub_self, idxFrom], ?_, ?_⟩
          · intro j hj
            simp only [List.mem_cons, List.not_mem_nil, or_false] at hj
            omega
          · intro j hj
            simp only [List.mem_cons, List.not_mem_nil, or_false] at hj
            omega

theorem writeLoop_bound (env : DBEnv) (mode table querief placeholder : String)
    (fields : List String) (txOk : Bool) :
    ∀ (cs : List (List (List FieldVal))) (k : Nat) (acc : Int),
      ∀ ps ∈ (writeLoop env mode table querief placeholder fields txOk cs k acc).bound,
        ∃ chunk, chunk ∈ cs ∧ ps = chunkParams fields chunk := by
  cases txOk with
  | false =>
      intro cs k acc ps hps
      cases cs with
      | nil => simp [writeLoop] at hps
      | cons chunk rest => simp [writeLoop] at hps
  | true =>
      intro cs
      induction cs with
      | nil => intro k acc ps hps; simp [writeLoop] at hps
      | cons chunk rest ih =>
          intro k acc ps hps
          rw [writeLoop] at hps
          simp only [if_true] at hps
          cases hpq : env.prepare k (goSprintf1 querief
              (String.intercalate "," (List.replicate chunk.length placeholder))) with
          | some e => simp [hpq] at hps
          | none =>
              simp only [hpq] at hps
              cases heq : env.exec k (chunkParams fields chunk) with
              | error e =>
                  simp only [heq] at hps
                  simp at hps
                  exact ⟨chunk, by simp, hps⟩
              | ok a =>
                  simp only [heq] at hps
                  simp only [List.mem_cons] at hps
                  rcases hps with h | h
                  · exact ⟨chunk, by simp, h⟩
                  · obtain ⟨c, hc, hpsc⟩ := ih (k + 1) (acc + a) ps h
                    exact ⟨c, by simp [hc], hpsc⟩

theorem getConn_ok_batch (model : Model) (o : Option String) (m : Model)
    (h : getConn model o = Except.ok m) :
    m.BatchSize = (if model.BatchSize = 0 then 4096 else model.BatchSize) ∧
      0 < m.BatchSize := by
  cases o with
  | some e =>
      simp only [getConn] at h
      split_ifs at h
  | none =>
      simp only [getConn] at h
      by_cases h1 : model.DriverName ≠ "mysql"
      · rw [if_pos h1] at h
        exact absurd h (by simp)
      · rw [if_neg h1] at h
        by_cases h2 : model.DataSourceName = ""
        · rw [if_pos h2] at h
          exact absurd h (by simp)
        · rw [if_neg h2] at h
          by_cases h3 : model.BatchSize = 0
          · rw [if_pos h3] at h
            simp only [Model.mk.injEq] at h
            simp at h
            subst h
            simp [h3]
          · rw [if_neg h3] at h
            by_cases h4 : model.BatchSize < 0
            · rw [if_pos h4] at h
              exact absurd h (by simp)
            · rw [if_neg h4] at h
              simp only [Except.ok.injEq] at h
              subst h
              rw [if_neg h3]
              exact ⟨rfl, by omega⟩

theorem writeChunkStep_eq_min (b : Int) (c : Nat) (hb : 0 < b) (hc : 0 < c) :
    writeChunkStep b c = min b.toNat (65535 / c) := by
  simp only [writeChunkStep]
  have hcast : (65535 : Int) / (c : Int) = ((65535 / c : Nat) : Int) := by
    rw [Int.ofNat_tdiv]
    rfl
  split
  · rename_i hlt
    simp only [hcast] at hlt ⊢
    rw [min_eq_right (by omega : 65535 / c ≤ b.toNat)]
    exact Int.toNat_natCast _
  · rename_i hge
    simp only [hcast] at hge
    rw [min_eq_left (by omega : b.toNat ≤ 65535 / c)]

theorem writeChunkStep_pos (b : Int) (c : Nat) (hb : 0 < b) (hc : 0 < c)
    (hle : c ≤ 65535) : 0 < writeChunkStep b c := by
  rw [writeChunkStep_eq_min b c hb hc]
  have h2 : 1 ≤ 65535 / c := (Nat.one_le_div_iff hc).mpr hle
  omega

theorem map_const_query (l : List String) :
    l.map (fun _ => "?") = List.replicate l.length "?" := by
  induction l with
  | nil => rfl
  | cons a l ih => simp [List.replicate, ih]

theorem readLoopCur_pre_error (readType : List String) (e : String)
    (post : List (Except String (List GoVal))) :
    ∀ (pre : List (List GoVal)) (st : ModelState),
      readLoopCur readType (pre.map Except.ok ++ Except.error e :: post) st =
        (⟨st.Records ++ pre.map (fun v => readType.zip v), st.rows ++ pre⟩,
         some (e ++ "\n model.Scan failed")) := by
  intro pre
  induction pre with
  | nil => intro st; simp [readLoopCur]
  | cons v pre ih =>
      intro st
      simp only [List.map_cons, List.cons_append, readLoopCur]
      simp only [List.append_eq]
      rw [ih]
      simp

theorem readLoopLegacy_no_error (readType : List String) (env : ReadEnv)
    (prev : ModelState) (table : String) (fields : List String)
    (condition : String) (rr : List (Except String (List GoVal)))
    (hq : env.queryRes ("select " ++ String.intercalate "," fields ++ " from " ++
        table ++ " " ++ condition) = Except.ok rr) :
    (ReadLegacy env prev table fields condition readType).2 = none := by
  simp [ReadLegacy, hq]

/-- Claim C1: for every write call (Create or Update), if the prepare or
execute of any chunk's statement fails, the call returns the rows affected
accumulated so far together with an error, executes no subsequent chunk, and
does not commit the transaction. -/
theorem write_aborts_on_chunk_failure
    (model : Model) (env : DBEnv) (table mode : String)
    (r0 : List FieldVal) (rs : List (List FieldVal)) (m : Model)
    (hconn : getConn model env.openErr = Except.ok m)
    (hf : 0 < (parseValue r0 table mode).1.length)
    (htx : env.beginErr = none)
    (A : Nat → Int) (K : Nat) (eK : String)
    (hp : ∀ k q, k < K → env.prepare k q = none)
    (he : ∀ k ps, k < K → env.exec k ps = Except.ok (A k))
    (hfail : (∀ q, env.prepare K q = some eK) ∨
             ((∀ q, env.prepare K q = none) ∧ ∀ ps, env.exec K ps = Except.error eK))
    (hK : K < (chunksOf (writeChunkStep m.BatchSize (parseValue r0 table mode).1.length)
      (r0 :: rs)).length) :
    (write model env table (WriteInput.slice (r0 :: rs)) mode).err.isSome = true ∧
    (write model env table (WriteInput.slice (r0 :: rs)) mode).panicMsg = none ∧
    (write model env table (WriteInput.slice (r0 :: rs)) mode).committed = false ∧
    (write model env table (WriteInput.slice (r0 :: rs)) mode).rowsAffected =
      ((idxFrom 0 K).map A).sum ∧
    (∀ j ∈ (write model env table (WriteInput.slice (r0 :: rs)) mode).prepared, j ≤ K) ∧
    (∀ j ∈ (write model env table (WriteInput.slice (r0 :: rs)) mode).executed, j ≤ K) := by
  have hne : ¬((parseValue r0 table mode).1.length = 0) := by omega
  have habort := writeLoop_abort env mode table (parseValue r0 table mode).2.1
    (parseValue r0 table mode).2.2 (parseValue r0 table mode).1 A K eK hp he hfail
    (chunksOf (writeChunkStep m.BatchSize (parseValue r0 table mode).1.length) (r0 :: rs))
    0 0 (by omega) (by omega)
  obtain ⟨e, herr⟩ := Option.isSome_iff_exists.mp habort.1
  simp only [write, hconn, hne, if_false, htx, Option.isNone_none]
  rw [habort.2.1]
  simp only [Option.isSome_none, Bool.false_eq_true, if_false]
  rw [herr]
  refine ⟨rfl, rfl, rfl, ?_, habort.2.2.2.1, habort.2.2.2.2⟩
  have hacc := habort.2.2.1
  simp only [Nat.sub_zero, zero_add] at hacc
  exact hacc

/-- Claim C2: for every write call in which all chunk statements succeed but
the final transaction commit fails, the call returns rows-affected equal to
zero together with a reported error, and does not panic. -/
theorem write_commit_failure_reports_zero
    (model : Model) (env : DBEnv) (table mode : String)
    (r0 : List FieldVal) (rs : List (List FieldVal)) (m : Model)
    (hconn : getConn model env.openErr = Except.ok m)
    (hf : 0 < (parseValue r0 table mode).1.length)
    (hfle : (parseValue r0 table mode).1.length ≤ 65535)
    (htx : env.beginErr = none)
    (A : Nat → Int)
    (hp : ∀ k q, env.prepare k q = none)
    (he : ∀ k ps, env.exec k ps = Except.ok (A k))
    (e : String) (hcommit : env.commit = some e) :
    (write model env table (WriteInput.slice (r0 :: rs)) mode).rowsAffected = 0 ∧
    (write model env table (WriteInput.slice (r0 :: rs)) mode).err.isSome = true ∧
    (write model env table (WriteInput.slice (r0 :: rs)) mode).panicMsg = none ∧
    (write model env table (WriteInput.slice (r0 :: rs)) mode).committed = false := by
  have hne : ¬((parseValue r0 table mode).1.length = 0) := by omega
  simp only [write, hconn, hne, if_false, htx, Option.isNone_none]
  rw [writeLoop_ok env mode table (parseValue r0 table mode).2.1
    (parseValue r0 table mode).2.2 (parseValue r0 table mode).1 A hp he _ 0 0]
  simp only [Option.isSome_none, Bool.false_eq_true, if_false, hcommit]
  simp

/-- Claim C3: for every write of n records whose flattened record type has c
columns, the chunk size equals min(configured batch size, default 4096 when
the hint is unset, floor(65535 / c)), and the number of statement executions
equals ceil(n / chunkSize): writing exactly chunkSize records issues one
execution and chunkSize + 1 issues two. -/
theorem write_chunk_sizing
    (model : Model) (env : DBEnv) (table mode : String)
    (r0 : List FieldVal) (rs : List (List FieldVal)) (m : Model)
    (hconn : getConn model env.openErr = Except.ok m)
    (hf : 0 < (parseValue r0 table mode).1.length)
    (hfle : (parseValue r0 table mode).1.length ≤ 65535)
    (htx : env.beginErr = none)
    (A : Nat → Int)
    (hp : ∀ k q, env.prepare k q = none)
    (he : ∀ k ps, env.exec k ps = Except.ok (A k)) :
    writeChunkStep m.BatchSize (parseValue r0 table mode).1.length =
      min (if model.BatchSize = 0 then (4096 : Int) else model.BatchSize).toNat
        (65535 / (parseValue r0 table mode).1.length) ∧
    (write model env table (WriteInput.slice (r0 :: rs)) mode).executed.length =
      ((r0 :: rs).length +
          writeChunkStep m.BatchSize (parseValue r0 table mode).1.length - 1) /
        writeChunkStep m.BatchSize (parseValue r0 table mode).1.length ∧
    ((r0 :: rs).length = writeChunkStep m.BatchSize (parseValue r0 table mode).1.length →
      (write model env table (WriteInput.slice (r0 :: rs)) mode).executed.length = 1) ∧
    ((r0 :: rs).length =
        writeChunkStep m.BatchSize (parseValue r0 table mode).1.length + 1 →
      (write model env table (WriteInput.slice (r0 :: rs)) mode).executed.length = 2) := by
  obtain ⟨hbeq, hbpos⟩ := getConn_ok_batch model env.openErr m hconn
  have hne : ¬((parseValue r0 table mode).1.length = 0) := by omega
  have hstep : 0 < writeChunkStep m.BatchSize (parseValue r0 table mode).1.length :=
    writeChunkStep_pos _ _ hbpos hf hfle
  have hexec : (write model env table (WriteInput.slice (r0 :: rs)) mode).executed =
      idxFrom 0 (chunksOf (writeChunkStep m.BatchSize (parseValue r0 table mode).1.length)
        (r0 :: rs)).length := by
    simp only [write, hconn, hne, if_false, htx, Option.isNone_none]
    rw [writeLoop_ok env mode table (parseValue r0 table mode).2.1
      (parseValue r0 table mode).2.2 (parseValue r0 table mode).1 A hp he _ 0 0]
    simp only [Option.isSome_none, Bool.false_eq_true, if_false]
    cases env.commit <;> rfl
  have hcount : (write model env table (WriteInput.slice (r0 :: rs)) mode).executed.length =
      ((r0 :: rs).length +
          writeChunkStep m.BatchSize (parseValue r0 table mode).1.length - 1) /
        writeChunkStep m.BatchSize (parseValue r0 table mode).1.length := by
    rw [hexec, idxFrom_length, chunksOf_length _ _ hstep]
  refine ⟨?_, hcount, ?_, ?_⟩
  · rw [writeChunkStep_eq_min m.BatchSize _ hbpos hf, hbeq]
  · intro hn
    rw [hcount, hn]
    exact Nat.div_eq_of_lt_le (by omega) (by omega)
  · intro hn
    rw [hcount, hn]
    have h1 : writeChunkStep m.BatchSize (parseValue r0 table mode).1.length + 1 +
        writeChunkStep m.BatchSize (parseValue r0 table mode).1.length - 1 =
        writeChunkStep m.BatchSize (parseValue r0 table mode).1.length +
          writeChunkStep m.BatchSize (parseValue r0 table mode).1.length := by omega
    rw [h1]
    exact Nat.div_eq_of_lt_le (by omega) (by omega)

/-- Claim C4: the schema extractor produces column descriptors in field
declaration order, splicing a struct-typed field's own flattened descriptors
in place (depth-first), and every other field yields one descriptor whose
column name is the naming-override tag, or the field name when the tag is
absent. The recursive parse closure of the source refines the spec's
description of the traversal. -/
theorem parseValue_flatten_refines_spec (fs : List FieldVal) (table mode : String) :
    parseAccList fs ([], []) =
      ((specColumnDescriptors fs).map Prod.fst,
       (specColumnDescriptors fs).map Prod.snd) ∧
    (parseValue fs table mode).1 = (specColumnDescriptors fs).map Prod.fst := by
  have h := parseAccList_eq_spec fs ([], [])
  simp only [List.nil_append] at h
  refine ⟨h, ?_⟩
  show (parseAccList fs ([], [])).1 = _
  rw [h]

/-- Claim C5: for every table name and flattened column list, the statement
builder in insert-or-update mode returns the template
"insert into (cols) values %s on duplicate key update col=values(col),...;"
together with the placeholder group "(?,...,?)" holding exactly one marker
per column, and the per-chunk statement is obtained from the template by
substituting only the comma-joined list of placeholder groups, every listed
column being overwritten on conflict. -/
theorem parseValue_update_template (rv : List FieldVal) (table s : String)
    (ht : '%' ∉ table.toList)
    (htags : '%' ∉ (String.intercalate "," (parseAccList rv ([], [])).2).toList) :
    (parseValue rv table "Update").2.1 =
      "insert into " ++ table ++ "(" ++
        String.intercalate "," (parseAccList rv ([], [])).2 ++
        ") values %s on duplicate key update " ++
        String.intercalate ","
          ((parseAccList rv ([], [])).2.map (fun t => t ++ "=values(" ++ t ++ ")")) ++
        ";" ∧
    (parseValue rv table "Update").2.2 =
      "(" ++ String.intercalate ","
        (List.replicate (parseAccList rv ([], [])).2.length "?") ++ ")" ∧
    goSprintf1 (parseValue rv table "Update").2.1 s =
      "insert into " ++ table ++ "(" ++
        String.intercalate "," (parseAccList rv ([], [])).2 ++
        ") values " ++ s ++ " on duplicate key update " ++
        String.intercalate ","
          ((parseAccList rv ([], [])).2.map (fun t => t ++ "=values(" ++ t ++ ")")) ++
        ";" := by
  refine ⟨rfl, ?_, ?_⟩
  · show "(" ++ String.intercalate ","
        ((parseAccList rv ([], [])).2.map (fun _ => "?")) ++ ")" = _
    rw [map_const_query]
  · have hA : '%' ∉ ("insert into " ++ table ++ "(" ++
        String.intercalate "," (parseAccList rv ([], [])).2 ++ ") values ").data := by
      intro hmem
      simp only [String.data_append, List.mem_append] at hmem
      rcases hmem with ((((h | h) | h) | h) | h)
      · exact absurd h (by decide)
      · exact ht h
      · exact absurd h (by decide)
      · exact htags h
      · exact absurd h (by decide)
    have hqdata : (parseValue rv table "Update").2.1.data =
        ("insert into " ++ table ++ "(" ++
          String.intercalate "," (parseAccList rv ([], [])).2 ++ ") values ").data ++
        '%' :: 's' :: (" on duplicate key update " ++
          String.intercalate ","
            ((parseAccList rv ([], [])).2.map (fun t => t ++ "=values(" ++ t ++ ")")) ++
          ";").data := by
      show ("insert into " ++ table ++ "(" ++
          String.intercalate "," (parseAccList rv ([], [])).2 ++
          ") values %s on duplicate key update " ++
          String.intercalate ","
            ((parseAccList rv ([], [])).2.map (fun t => t ++ "=values(" ++ t ++ ")")) ++
          ";").data = _
      simp only [String.data_append, List.append_assoc, List.append_cancel_left_eq]
      rfl
    have hsub := substVerbS_split s
      ("insert into " ++ table ++ "(" ++
        String.intercalate "," (parseAccList rv ([], [])).2 ++ ") values ").data
      ((" on duplicate key update " ++
        String.intercalate ","
          ((parseAccList rv ([], [])).2.map (fun t => t ++ "=values(" ++ t ++ ")")) ++
        ";").data) hA
    show String.mk (substVerbS s (parseValue rv table "Update").2.1.data) = _
    rw [hqdata, hsub]
    show _ = String.mk (("insert into " ++ table ++ "(" ++
        String.intercalate "," (parseAccList rv ([], [])).2 ++
        ") values " ++ s ++ " on duplicate key update " ++
        String.intercalate ","
          ((parseAccList rv ([], [])).2.map (fun t => t ++ "=values(" ++ t ++ ")")) ++
        ";").data)
    congr 1
    simp only [String.data_append, List.append_assoc]
    rfl

/-- Claim C7: for every write call whose values argument is not a slice, or is
a slice with zero elements, the call returns a reported input-shape error
without panicking, and no SQL statement is executed. -/
theorem write_invalid_input_reported
    (model : Model) (env : DBEnv) (table mode : String) (m : Model)
    (hconn : getConn model env.openErr = Except.ok m) :
    write model env table WriteInput.notSlice mode =
      ⟨0, some ("dal." ++ mode ++ ": values is not a slice"), none, [], [], [], false⟩ ∧
    write model env table (WriteInput.slice []) mode =
      ⟨0, some ("dal." ++ mode ++ ": values has NO elements"), none, [], [], [], false⟩ := by
  simp only [write, hconn]
  simp

/-- Claim C9: for every write call, every parameter bound to a statement
placeholder is the string rendering (Go %v formatting) of the corresponding
record field value looked up by flattened field name, not the typed value
itself; this holds for every record and every field of every chunk. -/
theorem write_binds_string_renderings
    (model : Model) (env : DBEnv) (table mode : String)
    (r0 : List FieldVal) (rs : List (List FieldVal)) :
    ∀ ps ∈ (write model env table (WriteInput.slice (r0 :: rs)) mode).bound,
      ∀ p ∈ ps, ∃ row f, row ∈ r0 :: rs ∧ f ∈ (parseValue r0 table mode).1 ∧
        p = GoVal.vstr (sprintfRV (fieldByName row f)) := by
  intro ps hps p hp
  have hchunk : ∃ chunk,
      chunk ∈ chunksOf (writeChunkStep (match getConn model env.openErr with
        | Except.ok m => m.BatchSize | Except.error _ => 0)
          (parseValue r0 table mode).1.length) (r0 :: rs) ∧
      ps = chunkParams (parseValue r0 table mode).1 chunk := by
    cases hg : getConn model env.openErr with
    | error eg => simp only [write, hg] at hps; simp at hps
    | ok m =>
        simp only [write, hg] at hps ⊢
        by_cases hlen : (parseValue r0 table mode).1.length = 0
        · simp only [hlen, if_true] at hps
          simp at hps
        · simp only [hlen, if_false] at hps
          split at hps
          · exact writeLoop_bound env mode table _ _ _ _ _ 0 0 ps hps
          · split at hps
            · exact writeLoop_bound env mode table _ _ _ _ _ 0 0 ps hps
            · split at hps
              · exact writeLoop_bound env mode table _ _ _ _ _ 0 0 ps hps
              · exact writeLoop_bound env mode table _ _ _ _ _ 0 0 ps hps
  obtain ⟨chunk, hcm, hpseq⟩ := hchunk
  subst hpseq
  simp only [chunkParams, List.mem_flatten, List.mem_map] at hp
  obtain ⟨l, ⟨row, hrow, hleq⟩, hpl⟩ := hp
  subst hleq
  simp only [List.mem_map] at hpl
  obtain ⟨f, hfm, hpeq⟩ := hpl
  exact ⟨row, f, chunksOf_mem _ _ chunk hcm row hrow, hfm, hpeq.symm⟩

/-- Claim C10: for every write call, the error returned from beginning the
transaction is discarded: a failed Begin is never reported in the returned
error, and execution proceeds with the invalid transaction handle, surfacing
as a panic at the first Prepare rather than as a reported error. -/
theorem write_begin_error_discarded
    (model : Model) (env : DBEnv) (table mode : String)
    (r0 : List FieldVal) (rs : List (List FieldVal)) (m : Model) (e : String)
    (hconn : getConn model env.openErr = Except.ok m)
    (hf : 0 < (parseValue r0 table mode).1.length)
    (hfle : (parseValue r0 table mode).1.length ≤ 65535)
    (hbegin : env.beginErr = some e) :
    (write model env table (WriteInput.slice (r0 :: rs)) mode).err = none ∧
    (write model env table (WriteInput.slice (r0 :: rs)) mode).panicMsg =
      some "runtime error: invalid memory address or nil pointer dereference" ∧
    (write model env table (WriteInput.slice (r0 :: rs)) mode).committed = false ∧
    (write model env table (WriteInput.slice (r0 :: rs)) mode).rowsAffected = 0 := by
  obtain ⟨hbeq, hbpos⟩ := getConn_ok_batch model env.openErr m hconn
  have hne : ¬((parseValue r0 table mode).1.length = 0) := by omega
  have hstep : 0 < writeChunkStep m.BatchSize (parseValue r0 table mode).1.length :=
    writeChunkStep_pos _ _ hbpos hf hfle
  have hlen : 0 < (chunksOf (writeChunkStep m.BatchSize (parseValue r0 table mode).1.length)
      (r0 :: rs)).length := by
    rw [chunksOf_length _ _ hstep]
    have : writeChunkStep m.BatchSize (parseValue r0 table mode).1.length ≤
        (r0 :: rs).length +
          writeChunkStep m.BatchSize (parseValue r0 table mode).1.length - 1 := by
      simp only [List.length_cons]
      omega
    exact (Nat.one_le_div_iff hstep).mpr this
  simp only [write, hconn, hne, if_false, hbegin, Option.isNone_some]
  cases hcs : chunksOf (writeChunkStep m.BatchSize (parseValue r0 table mode).1.length)
      (r0 :: rs) with
  | nil => rw [hcs] at hlen; simp at hlen
  | cons chunk rest =>
      rw [writeLoop]
      simp only [Bool.false_eq_true, if_false]
      simp

/-- Claim C6 (amended): in the current Read, a scan failure on an individual
result row aborts the call: Read returns an error at once, the rows decoded
before the failure (and only those) remain as the call's results on the
Model, and no later row is decoded. -/
theorem read_scan_error_aborts
    (model : Model) (env : ReadEnv) (prev : ModelState)
    (table : String) (fields : List String) (condition : String)
    (readType : List String) (m : Model)
    (hconn : getConn model env.openErr = Except.ok m)
    (pre : List (List GoVal)) (e : String)
    (post : List (Except String (List GoVal)))
    (hq : env.queryRes ("select " ++ String.intercalate "," fields ++ " from " ++
        table ++ " " ++ condition) =
      Except.ok (pre.map Except.ok ++ Except.error e :: post)) :
    (Read model env prev table fields condition readType).2 =
      some (e ++ "\n model.Scan failed") ∧
    (Read model env prev table fields condition readType).1.Records =
      pre.map (fun vals => readType.zip vals) ∧
    (Read model env prev table fields condition readType).1.rows = pre := by
  simp only [Read, hconn, hq]
  rw [readLoopCur_pre_error readType e post pre ⟨[], []⟩]
  simp

/-- Claim C6 counterexample: a Read over three result rows whose second row
fails to scan returns an error and decodes only the first row - the failing
row is not skipped and the loop does not continue, contradicting the claim
that such a call returns no aggregate error and keeps reading. -/
theorem read_scan_error_not_skipped_cex :
    (Read ⟨"mysql", "dsn", 0⟩
        ⟨none, fun _ => Except.ok [Except.ok [GoVal.vint 1], Except.error "bad",
          Except.ok [GoVal.vint 3]]⟩
        ⟨[], []⟩ "t" ["id"] "" ["ID"]).2 ≠ none ∧
    (Read ⟨"mysql", "dsn", 0⟩
        ⟨none, fun _ => Except.ok [Except.ok [GoVal.vint 1], Except.error "bad",
          Except.ok [GoVal.vint 3]]⟩
        ⟨[], []⟩ "t" ["id"] "" ["ID"]).1.Records.length = 1 := by
  decide

/-- Claim C8: every Read call replaces the decoded records and the raw scan
rows wholesale rather than appending to a previous call's results, so two
consecutive Read calls over an unchanged underlying result set yield
identical decoded sequences both times. -/
theorem read_idempotent_wholesale
    (model : Model) (env : ReadEnv) (prev prev2 : ModelState)
    (table : String) (fields : List String) (condition : String)
    (readType : List String) :
    (Read model env
        (Read model env prev table fields condition readType).1
        table fields condition readType).1 =
      (Read model env prev table fields condition readType).1 ∧
    (∀ m rr, getConn model env.openErr = Except.ok m →
      env.queryRes ("select " ++ String.intercalate "," fields ++ " from " ++
        table ++ " " ++ condition) = Except.ok rr →
      (Read model env prev table fields condition readType).1 =
        (Read model env prev2 table fields condition readType).1) := by
  constructor
  · cases hg : getConn model env.openErr with
    | error eg => simp [Read, hg]
    | ok m =>
        cases hq : env.queryRes ("select " ++ String.intercalate "," fields ++
            " from " ++ table ++ " " ++ condition) with
        | error eq => simp [Read, hg, hq]
        | ok rows => simp [Read, hg, hq]
  · intro m rr hg hq
    simp [Read, hg, hq]

theorem write_aborts_on_chunk_failure_wit :
    (∀ ps, exEnvChunkFail.exec 1 ps = Except.error "boom") ∧
    (write ⟨"mysql", "dsn", 2⟩ exEnvChunkFail "user"
        (WriteInput.slice [exRec 7, exRec 8, exRec 9]) "Create").err.isSome = true ∧
    (write ⟨"mysql", "dsn", 2⟩ exEnvChunkFail "user"
        (WriteInput.slice [exRec 7, exRec 8, exRec 9]) "Create").committed = false ∧
    (write ⟨"mysql", "dsn", 2⟩ exEnvChunkFail "user"
        (WriteInput.slice [exRec 7, exRec 8, exRec 9]) "Create").rowsAffected = 2 ∧
    (∀ j ∈ (write ⟨"mysql", "dsn", 2⟩ exEnvChunkFail "user"
        (WriteInput.slice [exRec 7, exRec 8, exRec 9]) "Create").executed, j ≤ 1) := by
  have h := write_aborts_on_chunk_failure ⟨"mysql", "dsn", 2⟩ exEnvChunkFail "user" "Create"
    (exRec 7) [exRec 8, exRec 9] ⟨"mysql", "dsn", 2⟩ rfl (by decide) rfl
    (fun _ => 2) 1 "boom"
    (fun k q hk => rfl)
    (fun k ps hk => by
      have h0 : k = 0 := Nat.lt_one_iff.mp hk
      subst h0
      rfl)
    (Or.inr ⟨fun q => rfl, fun ps => rfl⟩)
    (by decide)
  exact ⟨fun ps => rfl, h.1, h.2.2.1, h.2.2.2.1, h.2.2.2.2.2⟩

theorem write_commit_failure_reports_zero_wit :
    exEnvCommitFail.commit = some "commit refused" ∧
    (write ⟨"mysql", "dsn", 0⟩ exEnvCommitFail "user"
        (WriteInput.slice [exRec 1, exRec 2]) "Update").rowsAffected = 0 ∧
    (write ⟨"mysql", "dsn", 0⟩ exEnvCommitFail "user"
        (WriteInput.slice [exRec 1, exRec 2]) "Update").err.isSome = true ∧
    (write ⟨"mysql", "dsn", 0⟩ exEnvCommitFail "user"
        (WriteInput.slice [exRec 1, exRec 2]) "Update").panicMsg = none := by
  have h := write_commit_failure_reports_zero ⟨"mysql", "dsn", 0⟩ exEnvCommitFail "user"
    "Update" (exRec 1) [exRec 2] ⟨"mysql", "dsn", 4096⟩ rfl (by decide) (by decide) rfl
    (fun _ => 1) (fun k q => rfl) (fun k ps => rfl) "commit refused" rfl
  exact ⟨rfl, h.1, h.2.1, h.2.2.1⟩

theorem write_chunk_sizing_wit :
    (0 < (parseValue exRec2 "user" "Update").1.length) ∧
    writeChunkStep (3 : Int) 2 = 3 ∧
    (write ⟨"mysql", "dsn", 3⟩ exEnvAllOk "user"
        (WriteInput.slice [exRec2, exRec2, exRec2, exRec2]) "Update").executed.length = 2 := by
  have h := write_chunk_sizing ⟨"mysql", "dsn", 3⟩ exEnvAllOk "user" "Update"
    exRec2 [exRec2, exRec2, exRec2] ⟨"mysql", "dsn", 3⟩ rfl (by decide) (by decide) rfl
    (fun _ => 1) (fun k q => rfl) (fun k ps => rfl)
  exact ⟨by decide, h.1, h.2.1⟩

theorem parseValue_update_template_wit :
    ('%' ∉ ("staff" : String).toList) ∧
    goSprintf1 (parseValue exPerson "staff" "Update").2.1 "(?,?)" =
      "insert into staff(name,age) values (?,?) on duplicate key update name=values(name),age=values(age);" ∧
    (parseValue exPerson "staff" "Update").2.2 = "(?,?)" := by
  have h := parseValue_update_template exPerson "staff" "(?,?)" (by decide) (by decide)
  refine ⟨by decide, ?_, by decide⟩
  rw [h.2.2]
  decide

theorem read_scan_error_aborts_wit :
    (exReadEnvScanFail.queryRes "select id from t " =
      Except.ok ([[GoVal.vint 1]].map Except.ok ++
        Except.error "bad" :: [Except.ok [GoVal.vint 3]])) ∧
    (Read ⟨"mysql", "dsn", 0⟩ exReadEnvScanFail ⟨[], []⟩ "t" ["id"] "" ["ID"]).2 =
      some "bad\n model.Scan failed" ∧
    (Read ⟨"mysql", "dsn", 0⟩ exReadEnvScanFail ⟨[], []⟩ "t" ["id"] "" ["ID"]).1.Records =
      [[("ID", GoVal.vint 1)]] := by
  have h := read_scan_error_aborts ⟨"mysql", "dsn", 0⟩ exReadEnvScanFail ⟨[], []⟩
    "t" ["id"] "" ["ID"] ⟨"mysql", "dsn", 4096⟩ rfl [[GoVal.vint 1]] "bad"
    [Except.ok [GoVal.vint 3]] rfl
  exact ⟨rfl, h.1, h.2.1⟩

theorem write_invalid_input_reported_wit :
    (getConn ⟨"mysql", "dsn", 2⟩ exEnvAllOk.openErr = Except.ok ⟨"mysql", "dsn", 2⟩) ∧
    write ⟨"mysql", "dsn", 2⟩ exEnvAllOk "user" WriteInput.notSlice "Create" =
      ⟨0, some "dal.Create: values is not a slice", none, [], [], [], false⟩ ∧
    write ⟨"mysql", "dsn", 2⟩ exEnvAllOk "user" (WriteInput.slice []) "Create" =
      ⟨0, some "dal.Create: values has NO elements", none, [], [], [], false⟩ := by
  have h := write_invalid_input_reported ⟨"mysql", "dsn", 2⟩ exEnvAllOk "user" "Create"
    ⟨"mysql", "dsn", 2⟩ rfl
  exact ⟨rfl, h.1, h.2⟩

theorem read_idempotent_wholesale_wit :
    (Read ⟨"mysql", "dsn", 0⟩ exReadEnvOk
        (Read ⟨"mysql", "dsn", 0⟩ exReadEnvOk ⟨[], []⟩ "t" ["id"] "" ["ID"]).1
        "t" ["id"] "" ["ID"]).1 =
      (Read ⟨"mysql", "dsn", 0⟩ exReadEnvOk ⟨[], []⟩ "t" ["id"] "" ["ID"]).1 ∧
    (Read ⟨"mysql", "dsn", 0⟩ exReadEnvOk ⟨[], []⟩ "t" ["id"] "" ["ID"]).1 =
      (Read ⟨"mysql", "dsn", 0⟩ exReadEnvOk
        ⟨[[("ID", GoVal.vint 9)]], [[GoVal.vint 9]]⟩ "t" ["id"] "" ["ID"]).1 := by
  have h := read_idempotent_wholesale ⟨"mysql", "dsn", 0⟩ exReadEnvOk ⟨[], []⟩
    ⟨[[("ID", GoVal.vint 9)]], [[GoVal.vint 9]]⟩ "t" ["id"] "" ["ID"]
  exact ⟨h.1, h.2 ⟨"mysql", "dsn", 4096⟩ _ rfl rfl⟩

theorem write_binds_string_renderings_wit :
    ([GoVal.vstr "7"] ∈ (write ⟨"mysql", "dsn", 2⟩ exEnvAllOk "user"
        (WriteInput.slice [exRec 7]) "Create").bound) ∧
    (∃ row f, row ∈ [exRec 7] ∧ f ∈ (parseValue (exRec 7) "user" "Create").1 ∧
      GoVal.vstr "7" = GoVal.vstr (sprintfRV (fieldByName row f))) := by
  refine ⟨by decide, ?_⟩
  exact write_binds_string_renderings ⟨"mysql", "dsn", 2⟩ exEnvAllOk "user" "Create"
    (exRec 7) [] [GoVal.vstr "7"] (by decide) (GoVal.vstr "7") (by decide)

theorem write_begin_error_discarded_wit :
    exEnvBeginFail.beginErr = some "begin refused" ∧
    (write ⟨"mysql", "dsn", 2⟩ exEnvBeginFail "user"
        (WriteInput.slice [exRec 7]) "Create").err = none ∧
    (write ⟨"mysql", "dsn", 2⟩ exEnvBeginFail "user"
        (WriteInput.slice [exRec 7]) "Create").panicMsg =
      some "runtime error: invalid memory address or nil pointer dereference" ∧
    (write ⟨"mysql", "dsn", 2⟩ exEnvBeginFail "user"
        (WriteInput.slice [exRec 7]) "Create").committed = false := by
  have h := write_begin_error_discarded ⟨"mysql", "dsn", 2⟩ exEnvBeginFail "user" "Create"
    (exRec 7) [] ⟨"mysql", "dsn", 2⟩ "begin refused" rfl (by decide) (by decide) rfl
  exact ⟨rfl, h.1, h.2.1, h.2.2.1⟩
